import Mathlib

set_option maxRecDepth 10000

/-!
Verification of the tuxpad windowed line-buffer editor (src/main.rs).

Rust strings are modelled as lists of characters (the source only ever
indexes by byte offset, and column arithmetic is code-unit based, so a
character stands for one code unit).  Fallible code is modelled with
Option: a Rust panic becomes none.  All definitions are translated from
src/main.rs; section comments cite the source line ranges.
-/

namespace Tuxpad

/-- A Rust String, as its sequence of code units. -/
abbrev Str := List Char

/-- src/main.rs:29 -/
def MAX_LINE_LENGTH : Nat := 10000

/-- src/main.rs:30 -/
def MAX_VISIBLE_LINES : Nat := 1000

/-! ## Splitting a backing store into lines (BufRead::lines semantics)

std::io::BufRead::lines yields the segments of the input between
newline characters; each segment has its trailing newline removed, and
a carriage return immediately before that newline is removed as well.
A final segment without a newline is yielded as is; an empty input
yields no lines at all. -/

/-- Remove one trailing carriage return, as the line iterator does to a
newline-terminated segment. -/
def stripCR (l : Str) : Str :=
  if l.getLast? = some '\r' then l.dropLast else l

/-- Accumulating scanner over the store content: acc holds the current
segment reversed. -/
def linesAux : Str → Str → List Str
  | [], acc => [acc.reverse]
  | c :: rest, acc =>
    if c = '\n' then
      stripCR acc.reverse :: (if rest.isEmpty then [] else linesAux rest [])
    else
      linesAux rest (c :: acc)

/-- The list of lines of a store content, as BufRead::lines yields them. -/
def splitLines (cs : Str) : List Str :=
  if cs.isEmpty then [] else linesAux cs []

/-- Truncation applied to each loaded or inserted line
(src/main.rs:100-104, 130-134). -/
def truncLine (l : Str) : Str :=
  if l.length > MAX_LINE_LENGTH then l.take MAX_LINE_LENGTH else l

/-! ## The windowed line buffer (struct LineBuffer, src/main.rs:56-157) -/

structure LineBuffer where
  lines : List Str
  max_lines : Nat
  start_line_number : Nat
  total_lines : Nat
  deriving DecidableEq, Repr

/-- LineBuffer::new (src/main.rs:64-71). -/
def LineBuffer.new (max_lines : Nat) : LineBuffer :=
  { lines := [], max_lines := max_lines, start_line_number := 0, total_lines := 0 }

/-- LineBuffer::load_chunk (src/main.rs:73-109).  The backing store is
an Option: none models a path that does not exist. -/
def LineBuffer.load_chunk (b : LineBuffer) (store : Option Str) (start_line : Nat) :
    LineBuffer :=
  match store with
  | none => { b with lines := [[]], total_lines := 1, start_line_number := 0 }
  | some content =>
    let all_lines := splitLines content
    if all_lines.isEmpty then
      { b with lines := [[]], total_lines := 1, start_line_number := 0 }
    else
      let actual_start := min start_line (all_lines.length - 1)
      let e := min (actual_start + b.max_lines) all_lines.length
      { b with
          lines := ((all_lines.drop actual_start).take (e - actual_start)).map truncLine,
          total_lines := all_lines.length,
          start_line_number := actual_start }

/-- LineBuffer::get_line (src/main.rs:111-117). -/
def LineBuffer.get_line (b : LineBuffer) (index : Nat) : Option Str :=
  if b.start_line_number ≤ index ∧ index < b.start_line_number + b.lines.length then
    b.lines[index - b.start_line_number]?
  else none

/-- Writing through the reference returned by LineBuffer::get_line_mut
(src/main.rs:119-125): replace the resident line at a document index.
Only used after get_line has returned some, mirroring the
if-let pattern around every get_line_mut call in the source. -/
def LineBuffer.set_line (b : LineBuffer) (index : Nat) (l : Str) : LineBuffer :=
  { b with lines := b.lines.set (index - b.start_line_number) l }

/-- Splice an element into a list at a position (VecDeque::insert /
String::insert). -/
def insert_at (l : List α) (i : Nat) (a : α) : List α :=
  l.take i ++ a :: l.drop i

/-- Remove the element of a list at a position (VecDeque::remove /
String::remove). -/
def remove_at (l : List α) (i : Nat) : List α :=
  l.take i ++ l.drop (i + 1)

/-- LineBuffer::insert_line (src/main.rs:127-143). -/
def LineBuffer.insert_line (b : LineBuffer) (index : Nat) (content : Str) : LineBuffer :=
  if b.start_line_number ≤ index ∧ index ≤ b.start_line_number + b.lines.length then
    let local_index := index - b.start_line_number
    let truncated := truncLine content
    let ls := insert_at b.lines local_index truncated
    let ls := if ls.length > b.max_lines then ls.dropLast else ls
    { b with lines := ls, total_lines := b.total_lines + 1 }
  else b

/-- LineBuffer::remove_line (src/main.rs:145-156); returns the updated
buffer and the removed line. -/
def LineBuffer.remove_line (b : LineBuffer) (index : Nat) : LineBuffer × Option Str :=
  if b.start_line_number ≤ index ∧ index < b.start_line_number + b.lines.length then
    let local_index := index - b.start_line_number
    let t := b.total_lines - 1
    let t := if t = 0 then 1 else t
    ({ b with lines := remove_at b.lines local_index, total_lines := t },
     b.lines[local_index]?)
  else (b, none)

/-! ## Saving (Editor::save_file, src/main.rs:228-261)

Only the byte content written to the destination is modelled. -/

/-- The small-file write loop: writeln for every line except the last,
which is written without a terminator (src/main.rs:245-251). -/
def joinLines : List Str → Str
  | [] => []
  | [l] => l
  | l :: l2 :: ls => l ++ '\n' :: joinLines (l2 :: ls)

/-- The byte content Editor::save_file writes for a buffer: when
total_lines exceeds MAX_VISIBLE_LINES the loop at src/main.rs:241-243
uses writeln for every resident line, otherwise the loop at
src/main.rs:245-251 leaves the final line unterminated. -/
def saveContent (b : LineBuffer) : Str :=
  if b.total_lines > MAX_VISIBLE_LINES then
    (b.lines.map (fun l => l ++ ['\n'])).flatten
  else
    joinLines b.lines

/-! ## Editor state (struct Editor, src/main.rs:159-213)

The syntax-highlighting assets and the last_operation Instant are
rendering and real-time concerns and carry no buffer semantics; they are
not part of the state.  A filesystem is modelled as a map from path to
optional store content and passed to the operations that read it. -/

inductive Mode where
  | Normal | Insert | Command | Search | Replace
  deriving DecidableEq, Repr

structure Cursor where
  x : Nat
  y : Nat
  deriving DecidableEq, Repr

structure Editor where
  buffer : LineBuffer
  cursor : Cursor
  offset_y : Nat
  mode : Mode
  filename : Option String
  modified : Bool
  status_message : String
  command_buffer : String
  search_query : String
  replace_query : String
  replace_with : String
  show_line_numbers : Bool
  show_help : Bool
  clipboard : Str
  undo_buffer : List Str
  quit_requested : Bool
  needs_reload : Bool
  deriving DecidableEq, Repr

/-- Editor::new (src/main.rs:183-213), the buffer-relevant fields. -/
def editorInit : Editor :=
  { buffer := LineBuffer.new MAX_VISIBLE_LINES
    cursor := { x := 0, y := 0 }
    offset_y := 0
    mode := Mode.Normal
    filename := none
    modified := false
    status_message := "TuxPad - Press F1 for help | ESC for normal mode"
    command_buffer := ""
    search_query := ""
    replace_query := ""
    replace_with := ""
    show_line_numbers := true
    show_help := false
    clipboard := []
    undo_buffer := []
    quit_requested := false
    needs_reload := false }

/-- Editor::load_file (src/main.rs:215-226).  The status text is a
formatted message whose exact content no claim depends on; it is
modelled by a fixed literal. -/
def Editor.load_file (disk : String → Option Str) (path : String) (s : Editor) : Editor :=
  { s with
      buffer := s.buffer.load_chunk (disk path) 0
      filename := some path
      cursor := { x := 0, y := 0 }
      offset_y := 0
      modified := false
      status_message := "Loaded" }

/-- Editor::save_undo_state (src/main.rs:263-270). -/
def Editor.save_undo_state (s : Editor) : Editor :=
  match s.buffer.get_line s.cursor.y with
  | some line =>
    let ub := s.undo_buffer ++ [line]
    { s with undo_buffer := if ub.length > 50 then ub.drop 1 else ub }
  | none => s

/-- Editor::reload_current_chunk (src/main.rs:389-395). -/
def Editor.reload_current_chunk (disk : String → Option Str) (s : Editor) : Editor :=
  match s.filename with
  | some path =>
    { s with buffer := s.buffer.load_chunk (disk path) (s.cursor.y - MAX_VISIBLE_LINES / 2) }
  | none => s

/-- Editor::insert_char (src/main.rs:272-297). -/
def Editor.insert_char (disk : String → Option Str) (c : Char) (s : Editor) : Editor :=
  let s := s.save_undo_state
  match s.buffer.get_line s.cursor.y with
  | some line =>
    if line.length < MAX_LINE_LENGTH then
      let insert_pos := min s.cursor.x line.length
      { s with
          buffer := s.buffer.set_line s.cursor.y (insert_at line insert_pos c)
          cursor := { s.cursor with x := insert_pos + 1 }
          modified := true }
    else
      { s with status_message := "Line too long" }
  | none =>
    let s := s.reload_current_chunk disk
    match s.buffer.get_line s.cursor.y with
    | some line =>
      if line.length < MAX_LINE_LENGTH then
        let insert_pos := min s.cursor.x line.length
        { s with
            buffer := s.buffer.set_line s.cursor.y (insert_at line insert_pos c)
            cursor := { s.cursor with x := insert_pos + 1 }
            modified := true }
      else s
    | none => s

/-- Editor::delete_char (src/main.rs:299-329), backspace semantics. -/
def Editor.delete_char (s : Editor) : Editor :=
  if s.cursor.x > 0 then
    let s := s.save_undo_state
    match s.buffer.get_line s.cursor.y with
    | some line =>
      if s.cursor.x ≤ line.length ∧ ¬ line.isEmpty then
        { s with
            buffer := s.buffer.set_line s.cursor.y (remove_at line (s.cursor.x - 1))
            cursor := { s.cursor with x := s.cursor.x - 1 }
            modified := true }
      else s
    | none => s
  else if s.cursor.y > 0 then
    let s := s.save_undo_state
    match s.buffer.get_line s.cursor.y, s.buffer.get_line (s.cursor.y - 1) with
    | some current_line, some prev_line =>
      if prev_line.length + current_line.length < MAX_LINE_LENGTH then
        let new_x := prev_line.length
        let b := s.buffer.set_line (s.cursor.y - 1) (prev_line ++ current_line)
        let b := (b.remove_line s.cursor.y).1
        { s with
            buffer := b
            cursor := { x := new_x, y := s.cursor.y - 1 }
            modified := true }
      else
        { s with status_message := "Cannot join: resulting line would be too long" }
    | _, _ => s
  else s

/-- The mode-dependent horizontal clamp of Editor::move_cursor
(src/main.rs:371-380). -/
def clampX : Mode → Nat → Nat → Nat
  | Mode.Insert, x, line_len => min x line_len
  | _, x, line_len => min x (max (line_len - 1) 0)

/-- The vertical half of Editor::move_cursor (src/main.rs:353-363):
clamp the target line and reload the window when the new line is not
resident. -/
def Editor.move_vertical (disk : String → Option Str) (dy : Int) (s : Editor) : Editor :=
  if dy ≠ 0 then
    let new_y := ((s.cursor.y : Int) + dy).toNat
    let y2 := min new_y (s.buffer.total_lines - 1)
    let s2 := { s with cursor := { s.cursor with y := y2 } }
    if y2 < s2.buffer.start_line_number ∨
        y2 ≥ s2.buffer.start_line_number + s2.buffer.lines.length then
      s2.reload_current_chunk disk
    else s2
  else s

/-- The horizontal half of Editor::move_cursor (src/main.rs:365-384). -/
def Editor.move_horizontal (dx dy : Int) (s : Editor) : Editor :=
  match s.buffer.get_line s.cursor.y with
  | some line =>
    let line_len := line.length
    if dx ≠ 0 then
      let new_x := ((s.cursor.x : Int) + dx).toNat
      { s with cursor := { s.cursor with x := clampX s.mode new_x line_len } }
    else if dy ≠ 0 then
      { s with cursor := { s.cursor with x := clampX s.mode s.cursor.x line_len } }
    else s
  | none => { s with cursor := { s.cursor with x := 0 } }

/-- Editor::move_cursor (src/main.rs:350-387). -/
def Editor.move_cursor (disk : String → Option Str) (dx dy : Int) (s : Editor) : Editor :=
  (s.move_vertical disk dy).move_horizontal dx dy

/-- Editor::cut_line (src/main.rs:404-423). -/
def Editor.cut_line (s : Editor) : Editor :=
  match s.buffer.get_line s.cursor.y with
  | none => s
  | some line =>
    let s := s.save_undo_state
    let s := { s with clipboard := line }
    let b := (s.buffer.remove_line s.cursor.y).1
    let b :=
      if b.total_lines = 0 then
        { b with lines := b.lines ++ [[]], total_lines := 1 }
      else b
    let y := if s.cursor.y ≥ b.total_lines then b.total_lines - 1 else s.cursor.y
    { s with
        buffer := b
        cursor := { x := 0, y := y }
        modified := true
        status_message := "Line cut" }

/-- Editor::paste_line (src/main.rs:425-435). -/
def Editor.paste_line (s : Editor) : Editor :=
  if s.clipboard.isEmpty then s
  else
    let s := s.save_undo_state
    { s with
        buffer := s.buffer.insert_line (s.cursor.y + 1) s.clipboard
        cursor := { x := 0, y := s.cursor.y + 1 }
        modified := true
        status_message := "Line pasted" }

/-! ## Search (Editor::search, src/main.rs:437-456)

str::find over the remaining slice; the empty pattern ms at
offset 0 of any slice, including the empty one.  The slice expression
line[start..] panics when start exceeds the line length, so the search
result is an Option with none standing for a panic.  The while loop is
written with an explicit iteration bound: start strictly increases every
iteration and the loop aborts once start exceeds the line length, so
line.length + 2 iterations always suffice and the out-of-fuel branch is
unreachable. -/

/-- Byte offset of the first occurrence of query in hay
(str::find semantics). -/
def findSub : Str → Str → Option Nat
  | hay, query =>
    if query.isPrefixOf hay then some 0
    else
      match hay with
      | [] => none
      | _ :: rest => (findSub rest query).map (· + 1)

/-- The inner while loop of Editor::search over one line
(src/main.rs:443-450). -/
def search_line_loop : Nat → Nat → Str → Str → Nat → List (Nat × Nat) →
    Option (List (Nat × Nat))
  | 0, _, _, _, _, _ => none
  | fuel + 1, line_idx, line, query, start, ms =>
    if start ≤ line.length then
      match findSub (line.drop start) query with
      | none => some ms
      | some pos =>
        let ms2 := ms ++ [(line_idx, start + pos)]
        if ms2.length > 100 then some ms2
        else search_line_loop fuel line_idx line query (start + pos + 1) ms2
    else none

/-- The outer for loop of Editor::search over the resident lines
(src/main.rs:441-454). -/
def search_outer : List Str → Nat → Str → List (Nat × Nat) → Option (List (Nat × Nat))
  | [], _, _, ms => some ms
  | line :: rest, line_idx, query, ms =>
    match search_line_loop (line.length + 2) line_idx line query 0 ms with
    | none => none
    | some ms2 =>
      if ms2.length > 100 then some ms2
      else search_outer rest (line_idx + 1) query ms2

/-- Editor::search (src/main.rs:437-456). -/
def Editor.search (s : Editor) (query : Str) : Option (List (Nat × Nat)) :=
  search_outer s.buffer.lines s.buffer.start_line_number query []

/-! ## Operation sequences used by the invariant claims -/

/-- A cut or remove step, for the sequences claim C4 quantifies over. -/
inductive CutRemOp where
  | cut : CutRemOp
  | rem : Nat → CutRemOp
  deriving DecidableEq, Repr

/-- Apply a sequence of cut_line and remove_line operations. -/
def applyCutRem : List CutRemOp → Editor → Editor
  | [], s => s
  | CutRemOp.cut :: rest, s => applyCutRem rest s.cut_line
  | CutRemOp.rem i :: rest, s =>
    applyCutRem rest { s with buffer := (s.buffer.remove_line i).1 }

/-- Apply a sequence of move_cursor calls. -/
def applyMoves (disk : String → Option Str) : List (Int × Int) → Editor → Editor
  | [], s => s
  | (dx, dy) :: rest, s => applyMoves disk rest (s.move_cursor disk dx dy)

/-- A document line index is resident in the window. -/
def resident (b : LineBuffer) (i : Nat) : Prop :=
  b.start_line_number ≤ i ∧ i < b.start_line_number + b.lines.length

instance (b : LineBuffer) (i : Nat) : Decidable (resident b i) :=
  inferInstanceAs (Decidable (_ ∧ _))

/-- The total line count load_chunk computes for a backing store
(src/main.rs:76-93). -/
def storeTotal : Option Str → Nat
  | none => 1
  | some content => if (splitLines content).isEmpty then 1 else (splitLines content).length

/-- Strict ascending document order on search matches. -/
def matchLT (a b : Nat × Nat) : Prop :=
  a.1 < b.1 ∨ (a.1 = b.1 ∧ a.2 < b.2)

instance (a b : Nat × Nat) : Decidable (matchLT a b) :=
  inferInstanceAs (Decidable (_ ∨ _))

/-! ## Concrete states used by counterexamples and witnesses -/

/-- A freshly loaded five-line document with the cursor on document
line index 2 (1-indexed line 3). -/
def fiveLineState (l1 l2 l3 l4 l5 : Str) (cx : Nat) : Editor :=
  { editorInit with
      buffer := { lines := [l1, l2, l3, l4, l5], max_lines := MAX_VISIBLE_LINES,
                  start_line_number := 0, total_lines := 5 }
      cursor := { x := cx, y := 2 } }

/-- A single-line document. -/
def oneLineState (l : Str) : Editor :=
  { editorInit with
      buffer := { lines := [l], max_lines := MAX_VISIBLE_LINES,
                  start_line_number := 0, total_lines := 1 }
      cursor := { x := 0, y := 0 } }

/-- An empty filesystem. -/
def disk0 : String → Option Str := fun _ => none

/-! ## Claim C1 -/

/-- C1: the claim is false on the code.  Cutting line 3 of the loaded
5-line document a,b,c,d,e and pasting yields a,b,d,c,e: the cut line is
reinserted after the line that followed it, not at its old place. -/
theorem cut_paste_line3_not_original :
    ((fiveLineState ['a'] ['b'] ['c'] ['d'] ['e'] 0).cut_line.paste_line).buffer.lines
      ≠ [['a'], ['b'], ['c'], ['d'], ['e']] := by
  decide

/-- C1 (amended): starting from a loaded 5-line document with the cursor
on line 3 (1-indexed, nonempty, within the length cap as every loaded
line is), cut_line followed by paste_line yields the original five lines
with lines 3 and 4 transposed, and the total line count is again 5. -/
theorem cut_paste_line3_transposes (l1 l2 l3 l4 l5 : Str) (cx : Nat)
    (h3 : l3 ≠ []) (hlen : l3.length ≤ MAX_LINE_LENGTH) :
    ((fiveLineState l1 l2 l3 l4 l5 cx).cut_line.paste_line).buffer.lines
        = [l1, l2, l4, l3, l5] ∧
    ((fiveLineState l1 l2 l3 l4 l5 cx).cut_line.paste_line).buffer.total_lines = 5 := by
  simp [fiveLineState, Editor.cut_line, Editor.paste_line, Editor.save_undo_state,
        LineBuffer.get_line, LineBuffer.remove_line, LineBuffer.insert_line,
        insert_at, remove_at, truncLine, editorInit, LineBuffer.new,
        MAX_VISIBLE_LINES, MAX_LINE_LENGTH, List.isEmpty_iff, h3] at *
  omega

theorem cut_paste_line3_transposes_witness :
    ((fiveLineState ['a'] ['b'] ['c'] ['d'] ['e'] 0).cut_line.paste_line).buffer.lines
        = [['a'], ['b'], ['d'], ['c'], ['e']] ∧
    ((fiveLineState ['a'] ['b'] ['c'] ['d'] ['e'] 0).cut_line.paste_line).buffer.total_lines
        = 5 :=
  cut_paste_line3_transposes ['a'] ['b'] ['c'] ['d'] ['e'] 0 (by decide) (by decide)

/-! ## Claim C4 -/

theorem remove_line_total_pos (b : LineBuffer) (i : Nat)
    (h : 1 ≤ b.total_lines) : 1 ≤ (b.remove_line i).1.total_lines := by
  unfold LineBuffer.remove_line
  split
  · simp only
    split <;> omega
  · exact h

theorem save_undo_buffer (s : Editor) : s.save_undo_state.buffer = s.buffer := by
  unfold Editor.save_undo_state
  split <;> rfl

theorem save_undo_cursor (s : Editor) : s.save_undo_state.cursor = s.cursor := by
  unfold Editor.save_undo_state
  split <;> rfl

theorem cut_line_total_pos (s : Editor)
    (h : 1 ≤ s.buffer.total_lines) : 1 ≤ s.cut_line.buffer.total_lines := by
  unfold Editor.cut_line
  cases hget : s.buffer.get_line s.cursor.y with
  | none => exact h
  | some line =>
    simp only
    have hrem :
        1 ≤ ((s.save_undo_state.buffer.remove_line s.save_undo_state.cursor.y).1).total_lines := by
      apply remove_line_total_pos
      rw [save_undo_buffer]; exact h
    split <;> simp_all

/-- C4: starting from any editor state whose total line count is at
least 1, it stays at least 1 after any sequence of cut_line and
remove_line operations, including cutting or removing the only
remaining line. -/
theorem cut_remove_total_lines_pos (ops : List CutRemOp) (s : Editor)
    (h : 1 ≤ s.buffer.total_lines) :
    1 ≤ (applyCutRem ops s).buffer.total_lines := by
  induction ops generalizing s with
  | nil => exact h
  | cons op rest ih =>
    cases op with
    | cut => exact ih _ (cut_line_total_pos s h)
    | rem i => exact ih _ (remove_line_total_pos s.buffer i h)

theorem cut_remove_total_lines_pos_witness :
    1 ≤ (oneLineState ['h', 'i']).buffer.total_lines ∧
    1 ≤ (applyCutRem [CutRemOp.cut, CutRemOp.rem 0, CutRemOp.cut]
          (oneLineState ['h', 'i'])).buffer.total_lines :=
  ⟨by decide, cut_remove_total_lines_pos _ _ (by decide)⟩

/-! ## Claim C9 -/

/-- C9: the claim is right and the code is wrong.  Cutting the only
line of a single-line document leaves total_line_count = 1 but an EMPTY
window: no empty line is re-seeded, because remove_line already floored
total_lines at 1, which makes the reseed branch in cut_line
(total_lines == 0) unreachable.  The resulting state has no resident
line at all: get_line at the cursor returns none. -/
theorem cut_only_line_leaves_empty_window :
    ((oneLineState ['h', 'i']).cut_line).buffer.total_lines = 1 ∧
    ((oneLineState ['h', 'i']).cut_line).buffer.lines = [] ∧
    ((oneLineState ['h', 'i']).cut_line).buffer.get_line 0 = none := by
  decide

/-! ## Claim C10 -/

/-- C10: paste_line with an empty clipboard is a complete no-op: the
whole editor state, in particular the buffer contents, total line
count, cursor, modified flag, clipboard, and status message, is
unchanged. -/
theorem paste_empty_clipboard_noop (s : Editor) (h : s.clipboard = []) :
    s.paste_line = s := by
  simp [Editor.paste_line, h]

theorem paste_empty_clipboard_noop_witness :
    (oneLineState ['h', 'i']).paste_line = oneLineState ['h', 'i'] :=
  paste_empty_clipboard_noop (oneLineState ['h', 'i']) rfl

/-! ## Claim C2 -/

theorem stripCR_no_cr (l : Str) (h : '\r' ∉ l) : stripCR l = l := by
  unfold stripCR
  split
  · next h1 => exact absurd (List.mem_of_mem_getLast? (Option.mem_def.mpr h1)) h
  · rfl

theorem linesAux_ne_nil : ∀ (cs acc : Str), linesAux cs acc ≠ [] := by
  intro cs
  induction cs with
  | nil => intro acc; simp [linesAux]
  | cons c rest ih =>
    intro acc
    unfold linesAux
    split
    · simp
    · exact ih (c :: acc)

theorem joinLines_linesAux : ∀ (cs acc : Str), '\r' ∉ cs → '\r' ∉ acc →
    cs.getLast? ≠ some '\n' →
    joinLines (linesAux cs acc) = acc.reverse ++ cs := by
  intro cs
  induction cs with
  | nil => intro acc _ _ _; simp [linesAux, joinLines]
  | cons c rest ih =>
    intro acc h1 hacc h2
    by_cases hc : c = '\n'
    · subst hc
      cases rest with
      | nil => simp at h2
      | cons r rs =>
        have hne : linesAux (r :: rs) [] ≠ [] := linesAux_ne_nil _ _
        have hrest1 : '\r' ∉ r :: rs := fun hm => h1 (List.mem_cons_of_mem _ hm)
        have hrest2 : (r :: rs).getLast? ≠ some '\n' := by
          rwa [List.getLast?_cons_cons] at h2
        have hIH := ih [] hrest1 (by simp) hrest2
        have hstep : linesAux ('\n' :: r :: rs) acc
            = stripCR acc.reverse :: linesAux (r :: rs) [] := by
          simp [linesAux]
        rw [hstep, stripCR_no_cr _ (by simpa using hacc)]
        cases hL : linesAux (r :: rs) [] with
        | nil => exact absurd hL hne
        | cons b bs =>
          rw [hL] at hIH
          have hj : joinLines (acc.reverse :: b :: bs)
              = acc.reverse ++ '\n' :: joinLines (b :: bs) := rfl
          rw [hj, hIH]
          simp
    · have hrest1 : '\r' ∉ rest := fun hm => h1 (List.mem_cons_of_mem _ hm)
      have hcr : c ≠ '\r' := fun hce => h1 (hce ▸ List.mem_cons_self _ _)
      have hacc2 : '\r' ∉ c :: acc := by
        intro hm
        rcases List.mem_cons.mp hm with he | hm2
        · exact hcr he.symm
        · exact hacc hm2
      have hrest2 : rest.getLast? ≠ some '\n' := by
        cases rest with
        | nil => simp
        | cons r rs => rwa [List.getLast?_cons_cons] at h2
      rw [linesAux, if_neg hc]
      rw [ih (c :: acc) hrest1 hacc2 hrest2]
      simp

theorem truncLine_eq_self (l : Str) (h : l.length ≤ MAX_LINE_LENGTH) : truncLine l = l := by
  unfold truncLine
  rw [if_neg (by omega)]

theorem splitLines_eq (c : Str) (hc : c ≠ []) : splitLines c = linesAux c [] := by
  unfold splitLines
  rw [if_neg (by simpa using hc)]

/-- C2: the claim is false on the code.  The store whose byte content
is the two bytes a, newline has line count 1, smaller than the window
capacity, yet load followed by save reproduces only the single byte a:
the line iterator drops the terminator and save leaves the final line
unterminated. -/
theorem load_save_trailing_newline_lost :
    saveContent ((LineBuffer.new MAX_VISIBLE_LINES).load_chunk (some ['a', '\n']) 0)
      ≠ ['a', '\n'] := by
  decide

/-- C2 (amended): for every backing store whose line count is smaller
than the window capacity, which contains no carriage return, does not
end in a newline, and whose lines are within the maximum line length
(so the documented load truncation does not fire), loading and then
saving with no intervening edits reproduces the original byte content
exactly. -/
theorem load_save_roundtrip (c : Str) (h1 : '\r' ∉ c)
    (h2 : c.getLast? ≠ some '\n')
    (h3 : ∀ l ∈ splitLines c, l.length ≤ MAX_LINE_LENGTH)
    (h4 : (splitLines c).length < MAX_VISIBLE_LINES) :
    saveContent ((LineBuffer.new MAX_VISIBLE_LINES).load_chunk (some c) 0) = c := by
  by_cases hc : c = []
  · subst hc; decide
  · have hsplit := splitLines_eq c hc
    have hne : splitLines c ≠ [] := by rw [hsplit]; exact linesAux_ne_nil _ _
    have hnpos : 1 ≤ (splitLines c).length := List.length_pos.mpr hne
    have hjoin : joinLines (splitLines c) = c := by
      rw [hsplit, joinLines_linesAux c [] h1 (by simp) h2]; simp
    unfold LineBuffer.load_chunk
    simp only [LineBuffer.new]
    rw [if_neg (by simpa using hne)]
    have hstart : min 0 ((splitLines c).length - 1) = 0 := by omega
    have he : min (0 + MAX_VISIBLE_LINES) (splitLines c).length = (splitLines c).length := by
      omega
    simp only [hstart, he, List.drop_zero, Nat.sub_zero, List.take_length]
    have hmap : (splitLines c).map truncLine = splitLines c :=
      List.map_congr_left (fun l hl => truncLine_eq_self l (h3 l hl)) |>.trans (List.map_id _)
    rw [hmap]
    unfold saveContent
    rw [if_neg (by simp only; omega)]
    exact hjoin

theorem load_save_roundtrip_witness :
    saveContent ((LineBuffer.new MAX_VISIBLE_LINES).load_chunk (some ['a', '\n', 'b']) 0)
      = ['a', '\n', 'b'] :=
  load_save_roundtrip ['a', '\n', 'b'] (by decide) (by decide) (by decide) (by decide)

/-! ## Claim C5 -/

theorem set_getElem?_self (l : List α) (i : Nat) (a : α) (h : l[i]? = some a) :
    l.set i a = l := by
  induction l generalizing i with
  | nil => simp at h
  | cons x xs ih =>
    cases i with
    | zero => simp at h; simp [h]
    | succ n => simp at h ⊢; exact ih n h

theorem insert_at_length (l : List α) (pos : Nat) (c : α) (h : pos ≤ l.length) :
    (insert_at l pos c).length = l.length + 1 := by
  simp [insert_at]; omega

theorem remove_insert_at (l : List α) (pos : Nat) (c : α) (h : pos ≤ l.length) :
    remove_at (insert_at l pos c) pos = l := by
  induction l generalizing pos with
  | nil =>
    have : pos = 0 := by simpa using h
    subst this; simp [insert_at, remove_at]
  | cons x xs ih =>
    cases pos with
    | zero => simp [insert_at, remove_at]
    | succ n =>
      simp only [insert_at, remove_at, List.take_succ_cons, List.drop_succ_cons,
        List.cons_append] at *
      rw [ih n (by simpa using h)]

theorem get_line_resident (b : LineBuffer) (i : Nat) (L : Str)
    (h : b.get_line i = some L) :
    b.start_line_number ≤ i ∧ i < b.start_line_number + b.lines.length ∧
      b.lines[i - b.start_line_number]? = some L := by
  unfold LineBuffer.get_line at h
  split at h
  · next hcond => exact ⟨hcond.1, hcond.2, h⟩
  · exact absurd h (by simp)

theorem get_line_set_line (b : LineBuffer) (i : Nat) (v : Str)
    (hres : b.start_line_number ≤ i ∧ i < b.start_line_number + b.lines.length) :
    (b.set_line i v).get_line i = some v := by
  unfold LineBuffer.set_line LineBuffer.get_line
  simp only [List.length_set]
  rw [if_pos hres]
  exact List.getElem?_set_self (by omega)



/-- C5 (amended): for every resident cursor line shorter than the
maximum line length and every cursor column not exceeding the line
length, insert_char followed by delete_char restores the buffer lines
to their pre-insert content and the cursor to its pre-insert
position.  (Without the column bound the cursor is not restored, and at
the maximum length the insert is refused while the delete still
removes a character.) -/
theorem insert_delete_restores (disk : String → Option Str) (c : Char) (s : Editor) (L : Str)
    (h1 : s.buffer.get_line s.cursor.y = some L)
    (h2 : L.length < MAX_LINE_LENGTH)
    (h3 : s.cursor.x ≤ L.length) :
    ((s.insert_char disk c).delete_char).buffer.lines = s.buffer.lines ∧
    ((s.insert_char disk c).delete_char).cursor.x = s.cursor.x ∧
    ((s.insert_char disk c).delete_char).cursor.y = s.cursor.y := by
  obtain ⟨hr1, hr2, hidx⟩ := get_line_resident _ _ _ h1
  have hget1 : s.save_undo_state.buffer.get_line s.save_undo_state.cursor.y = some L := by
    rw [save_undo_buffer, save_undo_cursor]; exact h1
  have hmin : min s.save_undo_state.cursor.x L.length = s.cursor.x := by
    rw [save_undo_cursor]; exact min_eq_left h3
  have hins : s.insert_char disk c =
      { s.save_undo_state with
          buffer := s.save_undo_state.buffer.set_line s.save_undo_state.cursor.y
            (insert_at L s.cursor.x c)
          cursor := { s.save_undo_state.cursor with x := s.cursor.x + 1 }
          modified := true } := by
    unfold Editor.insert_char
    simp only [hget1, h2, if_true, hmin]
  have hxpos : 0 < (s.insert_char disk c).cursor.x := by rw [hins]; simp
  have hM : (s.insert_char disk c).buffer.get_line (s.insert_char disk c).cursor.y
      = some (insert_at L s.cursor.x c) := by
    rw [hins]
    simp only
    rw [save_undo_cursor]
    exact get_line_set_line _ _ _ (by rw [save_undo_buffer]; exact ⟨hr1, hr2⟩)
  have hlenM : (s.insert_char disk c).cursor.x ≤ (insert_at L s.cursor.x c).length := by
    rw [hins]
    simp only
    rw [insert_at_length L s.cursor.x c h3]
    omega
  have hdel : (s.insert_char disk c).delete_char =
      { (s.insert_char disk c).save_undo_state with
          buffer := (s.insert_char disk c).buffer.set_line (s.insert_char disk c).cursor.y
            (remove_at (insert_at L s.cursor.x c) ((s.insert_char disk c).cursor.x - 1))
          cursor := { x := (s.insert_char disk c).cursor.x - 1,
                      y := (s.insert_char disk c).cursor.y }
          modified := true } := by
    unfold Editor.delete_char
    have hMne : ¬ (insert_at L s.cursor.x c).isEmpty := by
      have := insert_at_length L s.cursor.x c h3
      cases hi : insert_at L s.cursor.x c with
      | nil => rw [hi] at this; simp at this
      | cons a as => simp
    simp only [if_pos hxpos, save_undo_buffer, save_undo_cursor, hM, hlenM, hMne,
      and_true, not_false_eq_true, if_true, true_and]
    simp
  rw [hdel]
  have hx1 : (s.insert_char disk c).cursor.x - 1 = s.cursor.x := by
    rw [hins]; simp only; omega
  have hy1 : (s.insert_char disk c).cursor.y = s.cursor.y := by
    rw [hins]
    simp only
    rw [save_undo_cursor]
  have hrem : remove_at (insert_at L s.cursor.x c) ((s.insert_char disk c).cursor.x - 1)
      = L := by
    rw [hx1]; exact remove_insert_at L s.cursor.x c h3
  refine ⟨?_, by simp [hx1], by simp [hy1]⟩
  simp only [hrem, hy1]
  rw [hins]
  simp only
  rw [save_undo_buffer, save_undo_cursor]
  unfold LineBuffer.set_line
  simp only [List.set_set]
  exact set_getElem?_self _ _ _ hidx

theorem insert_delete_restores_witness :
    (((oneLineState ['a', 'b']).insert_char disk0 'z').delete_char).buffer.lines
        = (oneLineState ['a', 'b']).buffer.lines ∧
    (((oneLineState ['a', 'b']).insert_char disk0 'z').delete_char).cursor.x
        = (oneLineState ['a', 'b']).cursor.x ∧
    (((oneLineState ['a', 'b']).insert_char disk0 'z').delete_char).cursor.y
        = (oneLineState ['a', 'b']).cursor.y :=
  insert_delete_restores disk0 'z' (oneLineState ['a', 'b']) ['a', 'b']
    (by decide) (by decide) (by decide)

/-- C5: the claim is false on the code for a cursor column beyond the
line length.  On the single resident line a,b with cursor column 5,
insert_char clamps the insertion to offset 2 and delete_char leaves the
cursor at column 2, not at the pre-insert column 5 (the line content is
restored, the cursor is not). -/
theorem insert_delete_cursor_not_restored :
    ((({ oneLineState ['a', 'b'] with
          cursor := { x := 5, y := 0 } }).insert_char disk0 'z').delete_char).cursor.x
      ≠ 5 := by
  decide

/-! ## Claim C7 -/

/-- C7: the claim is right and the code is wrong.  With an empty query,
str::find finds the empty pattern at offset 0 of every suffix, so start
walks one past the end of the line and the slice expression
line[start..] panics (modelled as none) instead of returning the empty
match list. -/
theorem search_empty_query_crashes :
    (oneLineState ['a', 'b']).search [] = none ∧
    (oneLineState ['a', 'b']).search [] ≠ some [] := by
  decide

/-! ## Claim C8 -/

theorem joinLines_eq_dropLast (l : List Str) (h : l ≠ []) :
    joinLines l = (l.dropLast.map (fun x => x ++ ['\n'])).flatten ++ l.getLast h := by
  induction l with
  | nil => exact absurd rfl h
  | cons a as ih =>
    cases as with
    | nil => simp [joinLines]
    | cons b bs =>
      have hIH := ih (by simp)
      have hj : joinLines (a :: b :: bs) = a ++ '\n' :: joinLines (b :: bs) := rfl
      rw [hj, hIH]
      simp [List.getLast]

/-- A backing store of 1001 empty lines (1001 newline bytes). -/
def bigStore : Str := List.replicate 1001 '\n'

/-- The buffer obtained by loading bigStore: 1000 resident lines,
total_line_count 1001, above the window capacity. -/
def bigBuf : LineBuffer := (LineBuffer.new MAX_VISIBLE_LINES).load_chunk (some bigStore) 0

/-- A small fully resident buffer. -/
def twoLineBuf : LineBuffer :=
  { lines := [['a'], ['b']], max_lines := MAX_VISIBLE_LINES,
    start_line_number := 0, total_lines := 2 }

/-- C8: the claim is false on the code.  For the reachable buffer state
loaded from a 1001-line store, total_line_count exceeds the window
capacity and save takes the large-file branch, which terminates every
written line with a newline, the final one included: the output is not
in the all-terminated-except-final format, and its last byte is a
newline. -/
theorem save_large_total_terminates_final_line :
    saveContent bigBuf ≠ joinLines bigBuf.lines ∧
    (saveContent bigBuf).getLast? = some '\n' := by
  decide

/-- C8 (amended): for every buffer state with at least one resident
line, save writes the resident lines one per output line; when
total_line_count is at most the window capacity every line is
newline-terminated except the final written line, which is
unterminated; when total_line_count exceeds the window capacity every
written line, the final one included, is newline-terminated. -/
theorem save_line_format (b : LineBuffer) (h : b.lines ≠ []) :
    (b.total_lines ≤ MAX_VISIBLE_LINES →
      saveContent b
        = (b.lines.dropLast.map (fun l => l ++ ['\n'])).flatten ++ b.lines.getLast h) ∧
    (MAX_VISIBLE_LINES < b.total_lines →
      saveContent b = (b.lines.map (fun l => l ++ ['\n'])).flatten) := by
  constructor
  · intro hle
    unfold saveContent
    rw [if_neg (by omega)]
    exact joinLines_eq_dropLast b.lines h
  · intro hgt
    unfold saveContent
    rw [if_pos (by omega)]

theorem save_line_format_witness :
    saveContent twoLineBuf = ['a', '\n', 'b'] := by
  have hx := (save_line_format twoLineBuf (by decide)).1 (by decide)
  exact hx.trans (by decide)

/-! ## Claim C6 -/

theorem search_line_loop_spec : ∀ (fuel : Nat) (idx : Nat) (line q : Str)
    (start : Nat) (acc res : List (Nat × Nat)),
    acc.length ≤ 100 →
    List.Chain' matchLT acc →
    (∀ m ∈ acc, m.1 < idx ∨ (m.1 = idx ∧ m.2 < start)) →
    search_line_loop fuel idx line q start acc = some res →
    List.Chain' matchLT res ∧ res.length ≤ 101 ∧ ∀ m ∈ res, m.1 ≤ idx := by
  intro fuel
  induction fuel with
  | zero =>
    intro idx line q start acc res _ _ _ hres
    simp [search_line_loop] at hres
  | succ fuel ih =>
    intro idx line q start acc res hlen hchain hbelow hres
    rw [search_line_loop] at hres
    by_cases hs : start ≤ line.length
    · rw [if_pos hs] at hres
      cases hfind : findSub (line.drop start) q with
      | none =>
        rw [hfind] at hres
        obtain rfl := Option.some.inj hres
        exact ⟨hchain, by omega, fun m hm => by
          rcases hbelow m hm with h | ⟨h1, _⟩
          · omega
          · omega⟩
      | some pos =>
        rw [hfind] at hres
        simp only at hres
        have hchain2 : List.Chain' matchLT (acc ++ [(idx, start + pos)]) := by
          rw [List.chain'_append]
          refine ⟨hchain, List.chain'_singleton _, ?_⟩
          intro x hx y hy
          simp only [List.head?_cons, Option.mem_some_iff] at hy
          subst hy
          have hxm : x ∈ acc := List.mem_of_mem_getLast? hx
          rcases hbelow x hxm with h | ⟨h1, h2⟩
          · exact Or.inl h
          · exact Or.inr ⟨h1, by omega⟩
        by_cases h100 : (acc ++ [(idx, start + pos)]).length > 100
        · rw [if_pos h100] at hres
          obtain rfl := Option.some.inj hres
          refine ⟨hchain2, by simp; omega, fun m hm => ?_⟩
          rcases List.mem_append.mp hm with hm1 | hm2
          · rcases hbelow m hm1 with h | ⟨h1, _⟩ <;> omega
          · simp at hm2; subst hm2; simp
        · rw [if_neg h100] at hres
          refine ih idx line q (start + pos + 1) _ res ?_ hchain2 ?_ hres
          · simp at h100 ⊢; omega
          · intro m hm
            rcases List.mem_append.mp hm with hm1 | hm2
            · rcases hbelow m hm1 with h | ⟨h1, h2⟩
              · exact Or.inl h
              · exact Or.inr ⟨h1, by omega⟩
            · simp at hm2; subst hm2; exact Or.inr ⟨rfl, by omega⟩
    · rw [if_neg hs] at hres
      exact absurd hres (by simp)

theorem search_outer_spec : ∀ (ls : List Str) (idx : Nat) (q : Str)
    (acc res : List (Nat × Nat)),
    acc.length ≤ 100 →
    List.Chain' matchLT acc →
    (∀ m ∈ acc, m.1 < idx) →
    search_outer ls idx q acc = some res →
    List.Chain' matchLT res ∧ res.length ≤ 101 := by
  intro ls
  induction ls with
  | nil =>
    intro idx q acc res hlen hchain _ hres
    simp only [search_outer, Option.some.injEq] at hres
    subst hres
    exact ⟨hchain, by omega⟩
  | cons line rest ih =>
    intro idx q acc res hlen hchain hbelow hres
    rw [search_outer] at hres
    cases hinner : search_line_loop (line.length + 2) idx line q 0 acc with
    | none => rw [hinner] at hres; exact absurd hres (by simp)
    | some acc2 =>
      rw [hinner] at hres
      simp only at hres
      obtain ⟨hc2, hl2, hm2⟩ := search_line_loop_spec _ idx line q 0 acc acc2 hlen hchain
        (fun m hm => Or.inl (hbelow m hm)) hinner
      by_cases h100 : acc2.length > 100
      · rw [if_pos h100] at hres
        obtain rfl := Option.some.inj hres
        exact ⟨hc2, hl2⟩
      · rw [if_neg h100] at hres
        refine ih (idx + 1) q acc2 res (by omega) hc2 ?_ hres
        intro m hm
        have := hm2 m hm
        omega

/-- C6 (amended): for every window state and every query, whenever
search returns (it panics on some empty-query windows, see C7), the
matches are (line, column) pairs in strictly ascending document order
and there are at most 101 of them; the cap is 101, not 100, because the
limit check runs only after a match has been pushed. -/
theorem search_sorted_le_101 (s : Editor) (q : Str) (ms : List (Nat × Nat))
    (h : s.search q = some ms) :
    List.Chain' matchLT ms ∧ ms.length ≤ 101 :=
  search_outer_spec _ _ _ [] ms (by simp) (by simp) (by simp) h

/-- A window holding a single line of 101 a characters: 101 occurrences
of the query a. -/
def manyMatchState : Editor :=
  { editorInit with
      buffer := { lines := [List.replicate 101 'a'], max_lines := MAX_VISIBLE_LINES,
                  start_line_number := 0, total_lines := 1 } }

/-- C6: the claim is false on the code.  On a window with 101
occurrences of the query, search returns 101 matches, more than the
claimed cap of 100: the length check fires only after the 101st push. -/
theorem search_can_return_101 :
    ((manyMatchState.search ['a']).getD []).length = 101 := by
  decide

theorem search_sorted_le_101_witness :
    List.Chain' matchLT [((0 : Nat), (1 : Nat))] ∧
      ([((0 : Nat), (1 : Nat))] : List (Nat × Nat)).length ≤ 101 :=
  search_sorted_le_101 (oneLineState ['a', 'b']) ['b'] [(0, 1)] (by decide)

/-! ## Claim C3 -/

theorem storeTotal_pos (store : Option Str) : 1 ≤ storeTotal store := by
  unfold storeTotal
  cases store with
  | none => simp
  | some c =>
    simp only
    by_cases h : (splitLines c).isEmpty
    · rw [if_pos h]
    · rw [if_neg h]
      have hne : splitLines c ≠ [] := by simpa [List.isEmpty_iff] using h
      have := List.length_pos.mpr hne
      omega

theorem load_chunk_total (b : LineBuffer) (store : Option Str) (st : Nat) :
    (b.load_chunk store st).total_lines = storeTotal store := by
  unfold LineBuffer.load_chunk storeTotal
  cases store with
  | none => simp
  | some c =>
    simp only
    by_cases h : (splitLines c).isEmpty
    · rw [if_pos h, if_pos h]
    · rw [if_neg h, if_neg h]

theorem load_chunk_max (b : LineBuffer) (store : Option Str) (st : Nat) :
    (b.load_chunk store st).max_lines = b.max_lines := by
  unfold LineBuffer.load_chunk
  cases store with
  | none => simp
  | some c =>
    simp only
    by_cases h : (splitLines c).isEmpty
    · rw [if_pos h]
    · rw [if_neg h]

theorem load_chunk_resident (b : LineBuffer) (store : Option Str) (st y : Nat)
    (hmax : 1 ≤ b.max_lines) (h1 : st ≤ y) (h2 : y < storeTotal store)
    (h3 : y < st + b.max_lines) :
    resident (b.load_chunk store st) y := by
  unfold LineBuffer.load_chunk resident
  unfold storeTotal at h2
  cases store with
  | none =>
    simp only at h2 ⊢
    refine ⟨Nat.zero_le y, ?_⟩
    simpa using h2
  | some c =>
    simp only at h2 ⊢
    by_cases h : (splitLines c).isEmpty
    · rw [if_pos h] at h2 ⊢
      refine ⟨Nat.zero_le y, ?_⟩
      simpa using h2
    · rw [if_neg h] at h2 ⊢
      have hne : splitLines c ≠ [] := by simpa [List.isEmpty_iff] using h
      have hpos := List.length_pos.mpr hne
      simp only [List.length_map, List.length_take, List.length_drop]
      omega



/-- The invariant maintained by move_cursor over a loaded file: the
filename is set, the window capacity is the configured one, the total
line count agrees with the backing store, and the cursor line is valid
and resident. -/
def MoveInv (disk : String → Option Str) (s : Editor) : Prop :=
  ∃ path, s.filename = some path ∧
    s.buffer.max_lines = MAX_VISIBLE_LINES ∧
    s.buffer.total_lines = storeTotal (disk path) ∧
    s.cursor.y < s.buffer.total_lines ∧
    resident s.buffer s.cursor.y

theorem reload_establishes_inv (disk : String → Option Str) (path : String) (s2 : Editor)
    (hf2 : s2.filename = some path)
    (hm2 : s2.buffer.max_lines = MAX_VISIBLE_LINES)
    (hylt : s2.cursor.y < storeTotal (disk path)) :
    MoveInv disk (s2.reload_current_chunk disk) := by
  unfold Editor.reload_current_chunk
  rw [hf2]
  simp only
  refine ⟨path, rfl, ?_, ?_, ?_, ?_⟩
  · show (s2.buffer.load_chunk (disk path) (s2.cursor.y - MAX_VISIBLE_LINES / 2)).max_lines
        = MAX_VISIBLE_LINES
    rw [load_chunk_max]; exact hm2
  · show (s2.buffer.load_chunk (disk path) (s2.cursor.y - MAX_VISIBLE_LINES / 2)).total_lines
        = storeTotal (disk path)
    exact load_chunk_total _ _ _
  · show s2.cursor.y
        < (s2.buffer.load_chunk (disk path) (s2.cursor.y - MAX_VISIBLE_LINES / 2)).total_lines
    rw [load_chunk_total]; exact hylt
  · show resident (s2.buffer.load_chunk (disk path) (s2.cursor.y - MAX_VISIBLE_LINES / 2))
        s2.cursor.y
    apply load_chunk_resident
    · rw [hm2]; decide
    · exact Nat.sub_le _ _
    · exact hylt
    · rw [hm2]
      simp only [MAX_VISIBLE_LINES]
      omega

theorem move_vertical_inv (disk : String → Option Str) (dy : Int) (s : Editor)
    (h : MoveInv disk s) : MoveInv disk (s.move_vertical disk dy) := by
  obtain ⟨path, hf, hm, ht, hy, hr⟩ := h
  unfold Editor.move_vertical
  by_cases hdy : dy ≠ 0
  · rw [if_pos hdy]
    simp only
    have htot : 1 ≤ s.buffer.total_lines := ht ▸ storeTotal_pos _
    have hy2lt :
        min (((s.cursor.y : Int) + dy).toNat) (s.buffer.total_lines - 1)
          < s.buffer.total_lines := by omega
    by_cases hout :
        min (((s.cursor.y : Int) + dy).toNat) (s.buffer.total_lines - 1)
            < s.buffer.start_line_number ∨
          min (((s.cursor.y : Int) + dy).toNat) (s.buffer.total_lines - 1)
            ≥ s.buffer.start_line_number + s.buffer.lines.length
    · rw [if_pos hout]
      apply reload_establishes_inv disk path
      · exact hf
      · exact hm
      · exact ht ▸ hy2lt
    · rw [if_neg hout]
      push_neg at hout
      exact ⟨path, hf, hm, ht, hy2lt, hout.1, hout.2⟩
  · rw [if_neg hdy]
    exact ⟨path, hf, hm, ht, hy, hr⟩



theorem move_horizontal_frame (dx dy : Int) (s : Editor) :
    (s.move_horizontal dx dy).buffer = s.buffer ∧
    (s.move_horizontal dx dy).cursor.y = s.cursor.y ∧
    (s.move_horizontal dx dy).filename = s.filename := by
  unfold Editor.move_horizontal
  cases s.buffer.get_line s.cursor.y with
  | none => exact ⟨rfl, rfl, rfl⟩
  | some line =>
    simp only
    by_cases hdx : dx ≠ 0
    · rw [if_pos hdx]; exact ⟨rfl, rfl, rfl⟩
    · rw [if_neg hdx]
      by_cases hdy : dy ≠ 0
      · rw [if_pos hdy]; exact ⟨rfl, rfl, rfl⟩
      · rw [if_neg hdy]; exact ⟨rfl, rfl, rfl⟩

theorem move_cursor_inv (disk : String → Option Str) (dx dy : Int) (s : Editor)
    (h : MoveInv disk s) : MoveInv disk (s.move_cursor disk dx dy) := by
  have h1 := move_vertical_inv disk dy s h
  obtain ⟨path, hf, hm, ht, hy, hr⟩ := h1
  obtain ⟨hb, hcy, hfn⟩ := move_horizontal_frame dx dy (s.move_vertical disk dy)
  unfold Editor.move_cursor
  refine ⟨path, ?_, ?_, ?_, ?_, ?_⟩
  · rw [hfn]; exact hf
  · rw [hb]; exact hm
  · rw [hb]; exact ht
  · rw [hb, hcy]; exact hy
  · rw [hb, hcy]; exact hr

theorem applyMoves_inv (disk : String → Option Str) (moves : List (Int × Int)) (s : Editor)
    (h : MoveInv disk s) : MoveInv disk (applyMoves disk moves s) := by
  induction moves generalizing s with
  | nil => exact h
  | cons mv rest ih =>
    cases mv with
    | mk dx dy => exact ih _ (move_cursor_inv disk dx dy s h)

theorem load_file_inv (disk : String → Option Str) (path : String) :
    MoveInv disk (editorInit.load_file disk path) := by
  unfold Editor.load_file
  refine ⟨path, rfl, ?_, ?_, ?_, ?_⟩
  · show (editorInit.buffer.load_chunk (disk path) 0).max_lines = MAX_VISIBLE_LINES
    rw [load_chunk_max]; rfl
  · show (editorInit.buffer.load_chunk (disk path) 0).total_lines = storeTotal (disk path)
    exact load_chunk_total _ _ _
  · show 0 < (editorInit.buffer.load_chunk (disk path) 0).total_lines
    rw [load_chunk_total]; exact storeTotal_pos _
  · show resident (editorInit.buffer.load_chunk (disk path) 0) 0
    apply load_chunk_resident
    · decide
    · exact Nat.le_refl 0
    · exact storeTotal_pos _
    · show 0 < 0 + editorInit.buffer.max_lines
      decide

/-- C3: after loading any backing store and performing any sequence of
move_cursor calls (each clamping the vertical target into the valid
range and reloading the window centered on the new line when it falls
outside the window), the cursor line lies within
[0, total_line_count - 1] and the cursor line is resident in the
window. -/
theorem move_sequence_cursor_valid_resident (disk : String → Option Str) (path : String)
    (moves : List (Int × Int)) :
    (applyMoves disk moves (editorInit.load_file disk path)).cursor.y
        < (applyMoves disk moves (editorInit.load_file disk path)).buffer.total_lines ∧
    resident (applyMoves disk moves (editorInit.load_file disk path)).buffer
        (applyMoves disk moves (editorInit.load_file disk path)).cursor.y := by
  obtain ⟨path2, _, _, _, hy, hr⟩ :=
    applyMoves_inv disk moves (editorInit.load_file disk path) (load_file_inv disk path)
  exact ⟨hy, hr⟩

end Tuxpad
